import Mathlib

/-!
Shallow embedding of the `@kitium-ai/test-utils` repository pieces the claims
speak about:

* the HTTP mock registry (`HttpMockRegistry` in `src/unnamed/part_007`):
  `register`, `getHandler`, `recordRequest`, `getRequests`,
  `getRequestsByMethod`, `clear`, and the private `pathMatches`;
* the retry-with-backoff executor (`retry` in `src/unnamed/part_010`);
* the condition poller (`waitUntil` in `src/unnamed/part_010`).

Stateful TypeScript classes become explicit state passing on a state
structure; the asynchronous side effects that the claims observe
(invocations of the operation, `onRetry` callbacks, `setTimeout` sleeps,
predicate evaluations) are modelled as an explicit event trace returned
alongside the result.  Fallible operations return `Except`.
-/

namespace TestUtils

/-! ## HTTP mock registry (src/unnamed/part_007) -/

/-- A path pattern is `string | RegExp`.  A `RegExp` is modelled by its
source text (used when the pattern is interpolated into a map key, where
JavaScript renders `/src/`) together with its `test` function on strings. -/
inductive PathPattern where
  | str : String → PathPattern
  | regex : String → (String → Bool) → PathPattern

/-- JavaScript template interpolation `${path}` of a `string | RegExp`:
a string renders as itself, a `RegExp` renders as `/source/`. -/
def PathPattern.render : PathPattern → String
  | .str s => s
  | .regex src _ => "/" ++ src ++ "/"

/-- Contiguous-sublist test on character lists (an empty needle matches). -/
def charsInfixOf (needle : List Char) : List Char → Bool
  | [] => needle.isEmpty
  | b :: bs => needle.isPrefixOf (b :: bs) || charsInfixOf needle bs

/-- JavaScript `url.includes(s)`: substring containment. -/
def stringIncludes (url s : String) : Bool :=
  charsInfixOf s.data url.data

/-- JavaScript `s.toUpperCase()` on the ASCII fragment HTTP method strings
live in: uppercase every character. -/
def stringToUpper (s : String) : String :=
  String.mk (s.data.map Char.toUpper)

/-- Structure `HttpRequest` from `part_007`.  The registry logic only ever inspects
`method` and `url`; the optional `headers`/`body` payloads are never read
or written by any registry operation and are omitted. -/
structure HttpRequest where
  method : String
  url : String
  deriving DecidableEq, Repr

/-- Structure `MockHttpHandler` from `part_007`, parametric in the response payload
type (the registry never inspects `response`). -/
structure MockHttpHandler (Resp : Type) where
  method : String
  path : PathPattern
  response : Resp
  delay : Option Nat := none

/-- The `Map<string, MockHttpHandler[]>` of the registry, as an association
list keyed by strings (JavaScript `Map` with string keys). -/
abbrev HandlerMap (Resp : Type) := List (String × List (MockHttpHandler Resp))

/-- JavaScript `map.get(key)`, yielding `none` when the key is absent. -/
def mapGet {Resp : Type} (m : HandlerMap Resp) (k : String) :
    Option (List (MockHttpHandler Resp)) :=
  (m.find? (fun p => p.1 == k)).map Prod.snd

/-- JavaScript `map.set(key, v)`: replace the value when the key exists,
otherwise append the binding. -/
def mapSet {Resp : Type} (m : HandlerMap Resp) (k : String)
    (v : List (MockHttpHandler Resp)) : HandlerMap Resp :=
  if m.any (fun p => p.1 == k) then
    m.map (fun p => if p.1 == k then (k, v) else p)
  else
    m ++ [(k, v)]

/-- The mutable state of an `HttpMockRegistry` instance: the handler map
and the recorded-request log. -/
structure HttpMockRegistry (Resp : Type) where
  handlers : HandlerMap Resp := []
  requests : List HttpRequest := []

/-- A freshly constructed registry (`createHttpMockRegistry`). -/
def HttpMockRegistry.empty (Resp : Type) : HttpMockRegistry Resp :=
  { handlers := [], requests := [] }

/-- Method `register(handler)`: compute the key
`` `${handler.method.toUpperCase()}:${handler.path}` ``, fetch the existing
bucket (or `[]`), push the handler, and store the bucket back. -/
def HttpMockRegistry.register {Resp : Type} (st : HttpMockRegistry Resp)
    (handler : MockHttpHandler Resp) : HttpMockRegistry Resp :=
  let key := stringToUpper handler.method ++ ":" ++ handler.path.render
  let hs := (mapGet st.handlers key).getD []
  { st with handlers := mapSet st.handlers key (hs ++ [handler]) }

/-- The private `pathMatches(url, pathPattern)`: substring containment for
string patterns, `pattern.test(url)` for regexes. -/
def pathMatches {Resp : Type} (_ : HttpMockRegistry Resp)
    (url : String) : PathPattern → Bool
  | .str s => stringIncludes url s
  | .regex _ t => t url

/-- Method `getHandler(request)`: look up the bucket under the key
`` `${request.method.toUpperCase()}:*` `` (note the literal `*`), then scan
it in order for the first handler whose path matches the request url. -/
def HttpMockRegistry.getHandler {Resp : Type} (st : HttpMockRegistry Resp)
    (request : HttpRequest) : Option (MockHttpHandler Resp) :=
  let key := stringToUpper request.method ++ ":*"
  let hs := (mapGet st.handlers key).getD []
  hs.find? (fun h => pathMatches st request.url h.path)

/-- Method `recordRequest(request)`: append to the request log. -/
def HttpMockRegistry.recordRequest {Resp : Type} (st : HttpMockRegistry Resp)
    (request : HttpRequest) : HttpMockRegistry Resp :=
  { st with requests := st.requests ++ [request] }

/-- Method `getRequests()`: a copy of the request log. -/
def HttpMockRegistry.getRequests {Resp : Type} (st : HttpMockRegistry Resp) :
    List HttpRequest :=
  st.requests

/-- Method `getRequestsByMethod(method)`: filter the log on case-insensitive
method equality (`req.method.toUpperCase() === method.toUpperCase()`). -/
def HttpMockRegistry.getRequestsByMethod {Resp : Type}
    (st : HttpMockRegistry Resp) (method : String) : List HttpRequest :=
  st.requests.filter (fun req => stringToUpper req.method == stringToUpper method)

/-- Method `clear()`: `handlers.clear(); requests = []`. -/
def HttpMockRegistry.clear {Resp : Type} (_ : HttpMockRegistry Resp) :
    HttpMockRegistry Resp :=
  { handlers := [], requests := [] }

/-! ## Retry with exponential backoff (src/unnamed/part_010)

`retry` is `async`; its observable side effects are the invocations of the
operation, the `onRetry` callback calls, and the `setTimeout` sleeps.  The
operation is modelled as a function from the (1-indexed) attempt number to
the outcome of that invocation, and the run produces an event trace in the
exact order the effects happen in the source, together with the result. -/

/-- One observable effect of a `retry` run. -/
inductive RetryEvent (E : Type) where
  | call : Nat → RetryEvent E
  | onRetry : Nat → E → RetryEvent E
  | sleep : Nat → RetryEvent E
  deriving DecidableEq, Repr

/-- What `retry` throws on exhaustion: `lastError` when one was recorded,
otherwise the synthetic `new Error('Max retry attempts reached')`. -/
inductive RetryError (E : Type) where
  | last : E → RetryError E
  | synthetic : RetryError E
  deriving DecidableEq, Repr

/-- The options record of `retry`, with the source defaults.  `onRetry` is
observed through the event trace rather than stored. -/
structure RetryOptions where
  maxAttempts : Nat := 3
  delayMs : Nat := 100
  backoffMultiplier : Nat := 2

/-- The `for (let attempt = 1; attempt <= maxAttempts; attempt++)` loop of
`retry`, entered at `attempt` with the current `lastError`.  Each iteration
invokes the operation (a `call` event); on success the loop returns the
value; on failure it records the error and, when `attempt < maxAttempts`,
fires `onRetry(attempt, error)` and sleeps
`delayMs * backoffMultiplier ^ (attempt - 1)`.  Falling off the loop yields
`lastError`. -/
def retryLoop {E T : Type} (fn : Nat → Except E T)
    (maxAttempts delayMs backoffMultiplier : Nat)
    (attempt : Nat) (lastError : Option E) :
    List (RetryEvent E) × Except (Option E) T :=
  if _h : attempt ≤ maxAttempts then
    match fn attempt with
    | Except.ok v => ([RetryEvent.call attempt], Except.ok v)
    | Except.error e =>
      let pre : List (RetryEvent E) :=
        if attempt < maxAttempts then
          [RetryEvent.onRetry attempt e,
           RetryEvent.sleep (delayMs * backoffMultiplier ^ (attempt - 1))]
        else []
      let rest := retryLoop fn maxAttempts delayMs backoffMultiplier
        (attempt + 1) (some e)
      (RetryEvent.call attempt :: pre ++ rest.1, rest.2)
  else
    ([], Except.error lastError)
termination_by maxAttempts + 1 - attempt
decreasing_by omega

/-- Function `retry(fn, options)`: run the loop from attempt 1 with
`lastError = null`; on exhaustion throw `lastError` if one was recorded,
the synthetic error otherwise. -/
def retry {E T : Type} (fn : Nat → Except E T) (options : RetryOptions) :
    List (RetryEvent E) × Except (RetryError E) T :=
  let run := retryLoop fn options.maxAttempts options.delayMs
    options.backoffMultiplier 1 none
  match run.2 with
  | Except.ok v => (run.1, Except.ok v)
  | Except.error (some e) => (run.1, Except.error (RetryError.last e))
  | Except.error none => (run.1, Except.error RetryError.synthetic)

/-- The attempt indices of the `onRetry` events of a trace, in order. -/
def onRetryCalls {E : Type} (events : List (RetryEvent E)) : List Nat :=
  events.filterMap fun ev =>
    match ev with
    | RetryEvent.onRetry k _ => some k
    | _ => none

/-- The attempt indices of the operation invocations of a trace, in
order. -/
def operationCalls {E : Type} (events : List (RetryEvent E)) : List Nat :=
  events.filterMap fun ev =>
    match ev with
    | RetryEvent.call k => some k
    | _ => none

/-- The trace a run of `retry` produces across `count` consecutive failed
and retried attempts starting at attempt `a`: each such attempt `k`
contributes its invocation, then `onRetry(k, error)`, then the sleep of
`delayMs * backoffMultiplier ^ (k - 1)` milliseconds. -/
def failSegment {E : Type} (err : Nat → E) (delayMs backoffMultiplier : Nat) :
    Nat → Nat → List (RetryEvent E)
  | _, 0 => []
  | a, count + 1 =>
    RetryEvent.call a :: RetryEvent.onRetry a (err a) ::
      RetryEvent.sleep (delayMs * backoffMultiplier ^ (a - 1)) ::
      failSegment err delayMs backoffMultiplier (a + 1) count

/-! ## Condition poller `waitUntil` (src/unnamed/part_010)

The predicate is modelled as a function from the (0-indexed) evaluation
number to that evaluation's outcome: `Except.error e` for a throw,
`Except.ok b` for a returned boolean.  Time is modelled by the elapsed
milliseconds counter `Date.now() - startTime`, which starts at `0` and
advances by exactly `pollIntervalMs` across each `setTimeout` sleep
(evaluations themselves take no time in the model).  The trace records the
evaluations and sleeps; the `Bool` result is `true` when `waitUntil`
returned and `false` when it fell out of the loop to throw the timeout
error. -/

/-- One observable effect of a `waitUntil` run. -/
inductive WaitEvent (E : Type) where
  | eval : Nat → Except E Bool → WaitEvent E
  | sleep : Nat → WaitEvent E
  deriving Repr

/-- The options record of `waitUntil`, with the source defaults.
`timeoutMs` is an `Int` so that non-positive timeouts are expressible. -/
structure WaitOptions where
  timeoutMs : Int := 5000
  pollIntervalMs : Nat := 100
  message : String := "Timeout waiting for condition"

/-- The `while (Date.now() - startTime < timeoutMs)` loop of `waitUntil`,
entered at evaluation number `i` with `elapsed` milliseconds gone.  Each
iteration evaluates the predicate inside `try`: a `true` result returns; a
`false` result or a thrown error falls through to the
`setTimeout(pollIntervalMs)` sleep and the next iteration.  (A zero poll
interval would make model time stand still, so the recursion stops there;
every claim below is about a positive interval.) -/
def waitLoop {E : Type} (condition : Nat → Except E Bool)
    (timeoutMs : Int) (pollIntervalMs : Nat)
    (i elapsed : Nat) : List (WaitEvent E) × Bool :=
  if _h : (elapsed : Int) < timeoutMs then
    match condition i with
    | Except.ok true => ([WaitEvent.eval i (Except.ok true)], true)
    | r =>
      if _hp : 0 < pollIntervalMs then
        let rest := waitLoop condition timeoutMs pollIntervalMs
          (i + 1) (elapsed + pollIntervalMs)
        (WaitEvent.eval i r :: WaitEvent.sleep pollIntervalMs :: rest.1,
         rest.2)
      else
        ([WaitEvent.eval i r], false)
  else
    ([], false)
termination_by (timeoutMs - (elapsed : Int)).toNat
decreasing_by omega

/-- Function `waitUntil(condition, options)`: run the loop from evaluation `0` and
elapsed time `0`; falling out of the loop throws
`` `${message} (timeout: ${timeoutMs}ms)` ``. -/
def waitUntil {E : Type} (condition : Nat → Except E Bool)
    (options : WaitOptions) : List (WaitEvent E) × Except String Unit :=
  let run := waitLoop condition options.timeoutMs options.pollIntervalMs 0 0
  if run.2 then (run.1, Except.ok ())
  else (run.1,
    Except.error
      (options.message ++ " (timeout: " ++ toString options.timeoutMs ++ "ms)"))

/-- Replace a throwing predicate evaluation by one returning `false`,
leaving all other evaluations unchanged. -/
def squashCond {E : Type} (condition : Nat → Except E Bool) :
    Nat → Except E Bool := fun i =>
  match condition i with
  | Except.error _ => Except.ok false
  | r => r

/-- The effect of `squashCond` on a trace: a throwing evaluation event
becomes a `false` evaluation event; sleeps and boolean evaluations are
untouched. -/
def squashEvent {E : Type} : WaitEvent E → WaitEvent E
  | WaitEvent.eval i (Except.error _) => WaitEvent.eval i (Except.ok false)
  | ev => ev

/-! ## Concrete scenarios used to instantiate the theorems -/

/-- An operation failing on attempts 1 and 2 (with the attempt number as
the error) and succeeding with `42` from attempt 3 on. -/
def fnFailTwice : Nat → Except Nat Nat := fun k =>
  if k < 3 then Except.error k else Except.ok 42

/-- An operation failing on every attempt, with the attempt number as the
error. -/
def fnAlwaysFail : Nat → Except Nat Nat := fun k => Except.error k

/-- A predicate returning `true` on every evaluation. -/
def condAlwaysTrue : Nat → Except Nat Bool := fun _ => Except.ok true

/-! ## Unfolding lemmas for the retry loop -/

theorem retryLoop_exhausted {E T : Type} (fn : Nat → Except E T)
    (n d m a : Nat) (le : Option E) (h : ¬ a ≤ n) :
    retryLoop fn n d m a le = ([], Except.error le) := by
  rw [retryLoop]
  simp [h]

theorem retryLoop_ok {E T : Type} (fn : Nat → Except E T)
    (n d m a : Nat) (le : Option E) (h : a ≤ n) (v : T)
    (hv : fn a = Except.ok v) :
    retryLoop fn n d m a le = ([RetryEvent.call a], Except.ok v) := by
  rw [retryLoop]
  simp [h, hv]

theorem retryLoop_err {E T : Type} (fn : Nat → Except E T)
    (n d m a : Nat) (le : Option E) (h : a ≤ n) (e : E)
    (he : fn a = Except.error e) :
    retryLoop fn n d m a le =
      (RetryEvent.call a ::
        (if a < n then
          [RetryEvent.onRetry a e, RetryEvent.sleep (d * m ^ (a - 1))]
         else []) ++ (retryLoop fn n d m (a + 1) (some e)).1,
       (retryLoop fn n d m (a + 1) (some e)).2) := by
  rw [retryLoop]
  simp [h, he]

/-- A run entered at attempt `a` whose operation fails on the next `count`
attempts and succeeds on attempt `a + count ≤ maxAttempts` produces the
backoff trace of the `count` failures followed by the successful
invocation, and returns the success value. -/
theorem retryLoop_success_trace {E T : Type} (fn : Nat → Except E T)
    (err : Nat → E) (v : T) (n d m : Nat) :
    ∀ (count a : Nat) (le : Option E), a + count ≤ n →
      (∀ k, a ≤ k → k < a + count → fn k = Except.error (err k)) →
      fn (a + count) = Except.ok v →
      retryLoop fn n d m a le =
        (failSegment err d m a count ++ [RetryEvent.call (a + count)],
         Except.ok v) := by
  intro count
  induction count with
  | zero =>
    intro a le hle hfail hsucc
    rw [retryLoop_ok fn n d m a le (by omega) v (by simpa using hsucc)]
    simp [failSegment]
  | succ c ih =>
    intro a le hle hfail hsucc
    have hae : fn a = Except.error (err a) :=
      hfail a (Nat.le_refl a) (by omega)
    rw [retryLoop_err fn n d m a le (by omega) (err a) hae]
    have hrec := ih (a + 1) (some (err a)) (by omega)
      (fun k hk1 hk2 => hfail k (by omega) (by omega))
      (by have : a + 1 + c = a + (c + 1) := by omega
          rw [this]; exact hsucc)
    rw [hrec]
    have hj : a + 1 + c = a + (c + 1) := by omega
    simp [failSegment, if_pos (show a < n by omega), hj]

/-- A run entered at attempt `a ≤ maxAttempts` whose operation fails on
every remaining attempt produces the backoff trace of attempts
`a .. maxAttempts - 1`, a final invocation with no trailing `onRetry` or
sleep, and yields the last attempt's error. -/
theorem retryLoop_allFail_trace {E T : Type} (fn : Nat → Except E T)
    (err : Nat → E) (n d m : Nat) :
    ∀ (count a : Nat) (le : Option E), a + count = n →
      (∀ k, a ≤ k → k ≤ n → fn k = Except.error (err k)) →
      retryLoop fn n d m a le =
        (failSegment err d m a count ++ [RetryEvent.call n],
         Except.error (some (err n))) := by
  intro count
  induction count with
  | zero =>
    intro a le hle hfail
    have ha : a = n := by omega
    subst ha
    rw [retryLoop_err fn a d m a le (Nat.le_refl a) (err a)
      (hfail a (Nat.le_refl a) (Nat.le_refl a))]
    rw [retryLoop_exhausted fn a d m (a + 1) (some (err a)) (by omega)]
    simp [failSegment]
  | succ c ih =>
    intro a le hle hfail
    have hae : fn a = Except.error (err a) := hfail a (Nat.le_refl a) (by omega)
    rw [retryLoop_err fn n d m a le (by omega) (err a) hae]
    rw [ih (a + 1) (some (err a)) (by omega)
      (fun k hk1 hk2 => hfail k (by omega) hk2)]
    simp [failSegment, if_pos (show a < n by omega)]

/-- Entered at an attempt within budget, the loop either succeeds or
produces the error of the final attempt, never an empty `lastError`. -/
theorem retryLoop_result_cases {E T : Type} (fn : Nat → Except E T)
    (n d m : Nat) :
    ∀ (fuel a : Nat) (le : Option E), n + 1 - a ≤ fuel → a ≤ n →
      (∃ v, (retryLoop fn n d m a le).2 = Except.ok v) ∨
      (∃ e, (retryLoop fn n d m a le).2 = Except.error (some e) ∧
        fn n = Except.error e) := by
  intro fuel
  induction fuel with
  | zero => intro a le hfuel ha; omega
  | succ f ih =>
    intro a le hfuel ha
    cases hfa : fn a with
    | ok v =>
      rw [retryLoop_ok fn n d m a le ha v hfa]
      exact Or.inl ⟨v, rfl⟩
    | error e =>
      rw [retryLoop_err fn n d m a le ha e hfa]
      by_cases han : a + 1 ≤ n
      · exact ih (a + 1) (some e) (by omega) han
      · have ha' : a = n := by omega
        rw [retryLoop_exhausted fn n d m (a + 1) (some e) (by omega)]
        exact Or.inr ⟨e, rfl, ha' ▸ hfa⟩

/-- The `onRetry` attempt indices recorded across a failure segment are
exactly `a, a+1, …, a+count-1`. -/
theorem onRetryCalls_failSegment {E : Type} (err : Nat → E) (d m : Nat) :
    ∀ (count a : Nat),
      onRetryCalls (failSegment err d m a count) = List.range' a count := by
  intro count
  induction count with
  | zero => intro a; simp [failSegment, onRetryCalls]
  | succ c ih =>
    intro a
    simp [failSegment, onRetryCalls, List.range'_succ] at ih ⊢
    exact ih (a + 1)

/-- The operation-invocation attempt indices recorded across a failure
segment are exactly `a, a+1, …, a+count-1`. -/
theorem operationCalls_failSegment {E : Type} (err : Nat → E) (d m : Nat) :
    ∀ (count a : Nat),
      operationCalls (failSegment err d m a count) = List.range' a count := by
  intro count
  induction count with
  | zero => intro a; simp [failSegment, operationCalls]
  | succ c ih =>
    intro a
    simp [failSegment, operationCalls, List.range'_succ] at ih ⊢
    exact ih (a + 1)

/-- Reading off the result of `retry` from the result of its loop. -/
theorem retry_snd {E T : Type} (fn : Nat → Except E T) (opts : RetryOptions) :
    (retry fn opts).2 =
      match (retryLoop fn opts.maxAttempts opts.delayMs
          opts.backoffMultiplier 1 none).2 with
      | Except.ok v => Except.ok v
      | Except.error (some e) => Except.error (RetryError.last e)
      | Except.error none => Except.error RetryError.synthetic := by
  unfold retry
  cases h : (retryLoop fn opts.maxAttempts opts.delayMs
      opts.backoffMultiplier 1 none).2 with
  | ok v => simp [h]
  | error oe => cases oe <;> simp [h]

/-- C2: for every `n ≥ 1` and every operation failing on each of its first
`n - 1` invocations and succeeding on the `n`-th,
`retry(operation, {maxAttempts: n})` returns the success value and invokes
`onRetry` exactly `n - 1` times, with attempt indices `1 .. n-1` in
order. -/
theorem retry_succeeds_after_failures {E T : Type} (fn : Nat → Except E T)
    (err : Nat → E) (v : T) (opts : RetryOptions)
    (hn : 1 ≤ opts.maxAttempts)
    (hfail : ∀ k, 1 ≤ k → k < opts.maxAttempts → fn k = Except.error (err k))
    (hsucc : fn opts.maxAttempts = Except.ok v) :
    (retry fn opts).2 = Except.ok v ∧
      onRetryCalls (retry fn opts).1 =
        List.range' 1 (opts.maxAttempts - 1) := by
  have h1 : 1 + (opts.maxAttempts - 1) = opts.maxAttempts := by omega
  have h := retryLoop_success_trace fn err v opts.maxAttempts opts.delayMs
    opts.backoffMultiplier (opts.maxAttempts - 1) 1 none (by omega)
    (fun k hk1 hk2 => hfail k hk1 (by omega))
    (by rw [h1]; exact hsucc)
  rw [h1] at h
  simp [retry, h, onRetryCalls, List.filterMap_append]
  have := onRetryCalls_failSegment err opts.delayMs opts.backoffMultiplier
    (opts.maxAttempts - 1) 1
  simpa [onRetryCalls] using this

/-- C2 instantiated: `fnFailTwice` with `maxAttempts = 3` returns `42` and
fires `onRetry` with indices `1` then `2`. -/
theorem retry_succeeds_after_failures_witness :
    (retry fnFailTwice {maxAttempts := 3}).2 = Except.ok 42 ∧
      onRetryCalls (retry fnFailTwice {maxAttempts := 3}).1 = [1, 2] := by
  have h := retry_succeeds_after_failures fnFailTwice (fun k => k) 42
    {maxAttempts := 3} (by decide)
    (fun k hk1 hk2 => by
      have hk3 : k < 3 := hk2
      have hk : k = 1 ∨ k = 2 := by omega
      rcases hk with hk | hk <;> (rw [hk]; rfl))
    rfl
  exact ⟨h.1, h.2.trans rfl⟩

/-- C3: for `maxAttempts = n ≥ 1` and an operation failing on every
invocation, `retry` invokes the operation exactly `n` times — the recorded
invocation indices are `1 .. n`, so never `n + 1` — and then raises the
error observed on the last (`n`-th) invocation. -/
theorem retry_exhausts_and_raises_last {E T : Type} (fn : Nat → Except E T)
    (err : Nat → E) (opts : RetryOptions)
    (hn : 1 ≤ opts.maxAttempts)
    (hfail : ∀ k, 1 ≤ k → k ≤ opts.maxAttempts →
      fn k = Except.error (err k)) :
    (retry fn opts).2 =
        Except.error (RetryError.last (err opts.maxAttempts)) ∧
      operationCalls (retry fn opts).1 =
        List.range' 1 opts.maxAttempts := by
  have h := retryLoop_allFail_trace fn err opts.maxAttempts opts.delayMs
    opts.backoffMultiplier (opts.maxAttempts - 1) 1 none (by omega)
    (fun k hk1 hk2 => hfail k hk1 hk2)
  have hsplit := @List.range'_concat 1 1 (opts.maxAttempts - 1)
  have h2 : opts.maxAttempts - 1 + 1 = opts.maxAttempts := by omega
  have h3 : 1 + 1 * (opts.maxAttempts - 1) = opts.maxAttempts := by omega
  rw [h2, h3] at hsplit
  simp [retry, h, hsplit, operationCalls, List.filterMap_append]
  have := operationCalls_failSegment err opts.delayMs opts.backoffMultiplier
    (opts.maxAttempts - 1) 1
  simpa [operationCalls] using this

/-- C3 instantiated: `fnAlwaysFail` with the default `maxAttempts = 3` is
invoked on attempts `1, 2, 3` and raises the last error. -/
theorem retry_exhausts_and_raises_last_witness :
    (retry fnAlwaysFail {}).2 = Except.error (RetryError.last 3) ∧
      operationCalls (retry fnAlwaysFail {}).1 = [1, 2, 3] := by
  have h := retry_exhausts_and_raises_last fnAlwaysFail (fun k => k) {}
    (by decide) (fun k hk1 hk2 => rfl)
  exact ⟨h.1, h.2.trans rfl⟩

/-- C4: every failed attempt `k < maxAttempts` contributes, in order, its
invocation, then `onRetry(k, error)`, then the sleep of
`delayMs * backoffMultiplier ^ (k-1)` milliseconds before attempt `k + 1`
(this is the shape of `failSegment`); and a successful attempt ends the
trace immediately, with no further delay — both when the success happens at
attempt `j ≤ maxAttempts` and, for the failed attempts, when the run
exhausts the budget instead. -/
theorem retry_backoff_schedule {E T : Type} (fn : Nat → Except E T)
    (err : Nat → E) (v : T) (opts : RetryOptions) (j : Nat)
    (hj1 : 1 ≤ j) (hjn : j ≤ opts.maxAttempts)
    (hfail : ∀ k, 1 ≤ k → k < j → fn k = Except.error (err k)) :
    (fn j = Except.ok v →
      retry fn opts =
        (failSegment err opts.delayMs opts.backoffMultiplier 1 (j - 1) ++
          [RetryEvent.call j], Except.ok v)) ∧
    (j = opts.maxAttempts → fn j = Except.error (err j) →
      retry fn opts =
        (failSegment err opts.delayMs opts.backoffMultiplier 1 (j - 1) ++
          [RetryEvent.call j],
         Except.error (RetryError.last (err j)))) := by
  have h1 : 1 + (j - 1) = j := by omega
  constructor
  · intro hsucc
    have h := retryLoop_success_trace fn err v opts.maxAttempts opts.delayMs
      opts.backoffMultiplier (j - 1) 1 none (by omega)
      (fun k hk1 hk2 => hfail k hk1 (by omega))
      (by rw [h1]; exact hsucc)
    rw [h1] at h
    simp [retry, h]
  · intro hje hfe
    rw [hje] at hfe ⊢
    have hall : ∀ k, 1 ≤ k → k ≤ opts.maxAttempts →
        fn k = Except.error (err k) := by
      intro k hk1 hk2
      rcases Nat.lt_or_ge k opts.maxAttempts with hk | hk
      · exact hfail k hk1 (by omega)
      · have hkj : k = opts.maxAttempts := by omega
        rw [hkj]; exact hfe
    have h := retryLoop_allFail_trace fn err opts.maxAttempts opts.delayMs
      opts.backoffMultiplier (opts.maxAttempts - 1) 1 none (by omega) hall
    simp [retry, h]

/-- C4 instantiated: `fnFailTwice` under `maxAttempts = 5` fails attempts
`1` and `2` (each followed by `onRetry` and the backoff sleep of `100` then
`200` ms) and succeeds at attempt `3` with nothing after it. -/
theorem retry_backoff_schedule_witness :
    retry fnFailTwice {maxAttempts := 5} =
      (failSegment (fun k => k) 100 2 1 2 ++ [RetryEvent.call 3],
       Except.ok 42) := by
  have h := retry_backoff_schedule fnFailTwice (fun k => k) 42
    {maxAttempts := 5} 3 (by decide) (by decide)
    (fun k hk1 hk2 => by
      have hk3 : k < 3 := hk2
      have hk : k = 1 ∨ k = 2 := by omega
      rcases hk with hk | hk <;> (rw [hk]; rfl))
  exact h.1 rfl

/-- C9: `retry` raises the synthetic `'Max retry attempts reached'` error
exactly when the attempt loop never executes, i.e. when `maxAttempts = 0`;
for every policy with `maxAttempts ≥ 1` an error raised on exhaustion is
the operation's last observed error, never the synthetic fallback. -/
theorem retry_synthetic_only_when_no_attempts {E T : Type}
    (fn : Nat → Except E T) (opts : RetryOptions) :
    ((retry fn opts).2 = Except.error RetryError.synthetic ↔
      opts.maxAttempts = 0) ∧
    (∀ re, 1 ≤ opts.maxAttempts →
      (retry fn opts).2 = Except.error re →
      ∃ e, fn opts.maxAttempts = Except.error e ∧
        re = RetryError.last e) := by
  by_cases hn : opts.maxAttempts = 0
  · have hloop := retryLoop_exhausted fn opts.maxAttempts opts.delayMs
      opts.backoffMultiplier 1 none (by omega)
    constructor
    · rw [retry_snd, hloop]
      simp [hn]
    · intro re h1 _
      omega
  · have hcases := retryLoop_result_cases fn opts.maxAttempts opts.delayMs
      opts.backoffMultiplier opts.maxAttempts 1 none (by omega) (by omega)
    rcases hcases with ⟨v, hv⟩ | ⟨e, he, hfe⟩
    · constructor
      · rw [retry_snd, hv]
        simp [hn]
      · intro re h1 hre
        rw [retry_snd, hv] at hre
        simp at hre
    · constructor
      · rw [retry_snd, he]
        simp [hn]
      · intro re h1 hre
        rw [retry_snd, he] at hre
        simp at hre
        exact ⟨e, hfe, hre.symm⟩

/-- C9 instantiated: with `maxAttempts = 0` the synthetic error is raised;
with the default `maxAttempts = 3` the raised error is the operation's last
observed error `3`. -/
theorem retry_synthetic_only_when_no_attempts_witness :
    (retry fnAlwaysFail {maxAttempts := 0}).2 =
        Except.error RetryError.synthetic ∧
      ∃ e, fnAlwaysFail 3 = Except.error e ∧
        RetryError.last 3 = RetryError.last e := by
  constructor
  · exact (retry_synthetic_only_when_no_attempts fnAlwaysFail
      {maxAttempts := 0}).1.mpr rfl
  · exact (retry_synthetic_only_when_no_attempts fnAlwaysFail {}).2
      (RetryError.last 3) (by decide)
      (by simp [retry, retryLoop, fnAlwaysFail])

/-! ## Unfolding lemmas for the poll loop -/

theorem waitLoop_timeout {E : Type} (condition : Nat → Except E Bool)
    (t : Int) (p i el : Nat) (h : ¬ (el : Int) < t) :
    waitLoop condition t p i el = ([], false) := by
  rw [waitLoop]
  simp [h]

theorem waitLoop_true {E : Type} (condition : Nat → Except E Bool)
    (t : Int) (p i el : Nat) (h : (el : Int) < t)
    (hc : condition i = Except.ok true) :
    waitLoop condition t p i el =
      ([WaitEvent.eval i (Except.ok true)], true) := by
  rw [waitLoop]
  simp [h, hc]

theorem waitLoop_continue {E : Type} (condition : Nat → Except E Bool)
    (t : Int) (p i el : Nat) (h : (el : Int) < t) (hp : 0 < p)
    (r : Except E Bool) (hc : condition i = r)
    (hr : r ≠ Except.ok true) :
    waitLoop condition t p i el =
      (WaitEvent.eval i r :: WaitEvent.sleep p ::
        (waitLoop condition t p (i + 1) (el + p)).1,
       (waitLoop condition t p (i + 1) (el + p)).2) := by
  rw [waitLoop]
  rcases r with e | b
  · simp [h, hc, hp]
  · cases b
    · simp [h, hc, hp]
    · exact absurd rfl hr

theorem waitLoop_continue_zero {E : Type} (condition : Nat → Except E Bool)
    (t : Int) (i el : Nat) (h : (el : Int) < t)
    (r : Except E Bool) (hc : condition i = r)
    (hr : r ≠ Except.ok true) :
    waitLoop condition t 0 i el = ([WaitEvent.eval i r], false) := by
  rw [waitLoop]
  rcases r with e | b
  · simp [h, hc]
  · cases b
    · simp [h, hc]
    · exact absurd rfl hr

/-- The run of the poll loop on a predicate is, evaluation payloads aside,
the run on the same predicate with every throw replaced by `false`: same
sleeps, same number of evaluations, same success-or-timeout outcome. -/
theorem waitLoop_squash {E : Type} (condition : Nat → Except E Bool)
    (t : Int) (p : Nat) :
    ∀ i el, waitLoop (squashCond condition) t p i el =
      ((waitLoop condition t p i el).1.map squashEvent,
       (waitLoop condition t p i el).2) := by
  intro i el
  refine waitLoop.induct condition t p
    (fun i el => waitLoop (squashCond condition) t p i el =
      ((waitLoop condition t p i el).1.map squashEvent,
       (waitLoop condition t p i el).2))
    ?_ ?_ ?_ ?_ i el
  · intro i el h hc
    rw [waitLoop_true condition t p i el h hc,
      waitLoop_true (squashCond condition) t p i el h
        (by simp [squashCond, hc])]
    simp [squashEvent]
  · intro i el h hp hne ih
    rcases hc : condition i with e | b
    · rw [waitLoop_continue condition t p i el h hp (Except.error e) hc
        (by simp),
        waitLoop_continue (squashCond condition) t p i el h hp
          (Except.ok false) (by simp [squashCond, hc]) (by simp)]
      simp [squashEvent, ih]
    · cases b
      · rw [waitLoop_continue condition t p i el h hp (Except.ok false) hc
          (by simp),
          waitLoop_continue (squashCond condition) t p i el h hp
            (Except.ok false) (by simp [squashCond, hc]) (by simp)]
        simp [squashEvent, ih]
      · exact absurd hc hne
  · intro i el h hp hne
    have hp0 : p = 0 := by omega
    subst hp0
    rcases hc : condition i with e | b
    · rw [waitLoop_continue_zero condition t i el h (Except.error e) hc
        (by simp),
        waitLoop_continue_zero (squashCond condition) t i el h
          (Except.ok false) (by simp [squashCond, hc]) (by simp)]
      simp [squashEvent]
    · cases b
      · rw [waitLoop_continue_zero condition t i el h (Except.ok false) hc
          (by simp),
          waitLoop_continue_zero (squashCond condition) t i el h
            (Except.ok false) (by simp [squashCond, hc]) (by simp)]
        simp [squashEvent]
      · exact absurd hc hne
  · intro i el h
    rw [waitLoop_timeout condition t p i el h,
      waitLoop_timeout (squashCond condition) t p i el h]
    simp

/-- C5: a predicate evaluation that throws is treated exactly like one
returning `false`: running `waitUntil` on the predicate with every throwing
evaluation replaced by a `false` evaluation produces the same trace (up to
the recorded evaluation payloads) and the same result, so the exception is
swallowed — it can never surface in the result, whose only error is the
timeout message — and polling continues until an evaluation returns `true`
or the timeout elapses. -/
theorem waitUntil_swallows_throws {E : Type}
    (condition : Nat → Except E Bool) (options : WaitOptions) :
    waitUntil (squashCond condition) options =
      ((waitUntil condition options).1.map squashEvent,
       (waitUntil condition options).2) := by
  unfold waitUntil
  rw [waitLoop_squash]
  cases hb : (waitLoop condition options.timeoutMs options.pollIntervalMs
      0 0).2
  · simp [hb]
  · simp [hb]

/-- C6: a predicate whose first evaluation returns `true` makes
`waitUntil` with the default options return after that single evaluation,
with no poll-interval sleep in the trace. -/
theorem waitUntil_immediate {E : Type} (condition : Nat → Except E Bool)
    (h : condition 0 = Except.ok true) :
    waitUntil condition {} =
      ([WaitEvent.eval 0 (Except.ok true)], Except.ok ()) := by
  unfold waitUntil
  rw [waitLoop_true condition 5000 100 0 0 (by decide) h]
  simp

/-- C6 instantiated at the constantly-true predicate. -/
theorem waitUntil_immediate_witness :
    condAlwaysTrue 0 = Except.ok true ∧
      waitUntil condAlwaysTrue {} =
        ([WaitEvent.eval 0 (Except.ok true)], Except.ok ()) :=
  ⟨rfl, waitUntil_immediate condAlwaysTrue rfl⟩

/-- C10: with a non-positive `timeoutMs` the elapsed-time check fails
before the first predicate evaluation, so `waitUntil` throws the timeout
error with an empty trace — the predicate is never evaluated — whatever the
predicate does. -/
theorem waitUntil_nonpositive_timeout {E : Type}
    (condition : Nat → Except E Bool) (options : WaitOptions)
    (h : options.timeoutMs ≤ 0) :
    waitUntil condition options =
      ([], Except.error (options.message ++ " (timeout: " ++
        toString options.timeoutMs ++ "ms)")) := by
  unfold waitUntil
  rw [waitLoop_timeout condition options.timeoutMs options.pollIntervalMs
    0 0 (by push_cast; omega)]
  simp

/-- C10 instantiated: even the constantly-true predicate is never
evaluated under `timeoutMs = 0`. -/
theorem waitUntil_nonpositive_timeout_witness :
    (0 : Int) ≤ 0 ∧
      waitUntil condAlwaysTrue {timeoutMs := 0} =
        ([], Except.error ("Timeout waiting for condition" ++
          " (timeout: " ++ toString (0 : Int) ++ "ms)")) :=
  ⟨le_refl 0,
    waitUntil_nonpositive_timeout condAlwaysTrue {timeoutMs := 0}
      (le_refl 0)⟩

/-! ## Mock registry theorems -/

/-- C1 (refuting evaluation): after `register(GET, "/a", R1)` then
`register(GET, "/a", R2)`, `getHandler({method: GET, url: "/a"})` returns
`none`, not `R1`: `register` stored both handlers under the map key
`"GET:/a"`, while `getHandler` looks up the distinct key `"GET:*"`, whose
bucket is empty. -/
theorem getHandler_misses_registered_route :
    (((HttpMockRegistry.empty Nat).register
        ⟨"GET", PathPattern.str "/a", 1, none⟩).register
        ⟨"GET", PathPattern.str "/a", 2, none⟩).getHandler
      ⟨"GET", "/a"⟩ = none := rfl

/-- C7 counterexample: a recorded request whose method is `"get"` — not
equal to the queried method string `"GET"` — is nonetheless returned by
`getRequestsByMethod "GET"`, because the filter compares methods after
uppercasing both sides. -/
theorem getRequestsByMethod_returns_other_methods :
    ((HttpMockRegistry.empty Nat).recordRequest
        ⟨"get", "/x"⟩).getRequestsByMethod "GET" = [⟨"get", "/x"⟩] ∧
      ("get" : String) ≠ "GET" := ⟨rfl, by decide⟩

/-- Folding `recordRequest` over a list of requests appends them, in
order, to the request log. -/
theorem requests_foldl_recordRequest {Resp : Type} (rs : List HttpRequest) :
    ∀ st : HttpMockRegistry Resp,
      (rs.foldl HttpMockRegistry.recordRequest st).requests =
        st.requests ++ rs := by
  induction rs with
  | nil => intro st; simp
  | cons r rs ih =>
    intro st
    simp [List.foldl_cons, ih, HttpMockRegistry.recordRequest]

/-- C7 amended: for every sequence of `recordRequest` calls and every
method `m`, `getRequestsByMethod m` returns exactly the recorded requests
whose method equals `m` up to case — `method.toUpperCase()` equal to
`m.toUpperCase()` — in insertion order, and no others. -/
theorem getRequestsByMethod_filters_log {Resp : Type}
    (rs : List HttpRequest) (m : String) :
    (rs.foldl HttpMockRegistry.recordRequest
        (HttpMockRegistry.empty Resp)).getRequestsByMethod m =
      rs.filter (fun r => stringToUpper r.method == stringToUpper m) := by
  unfold HttpMockRegistry.getRequestsByMethod
  rw [requests_foldl_recordRequest]
  simp [HttpMockRegistry.empty]

/-- C8: `clear()` resets the routes and the request log in one state
transition: from every prior registry state the cleared state is exactly
the fresh empty registry — so no state with only one of the two parts
reset is observable — and on it every `getHandler` call returns `none` and
`getRequests` returns the empty list. -/
theorem clear_resets_routes_and_log {Resp : Type}
    (st : HttpMockRegistry Resp) :
    st.clear = HttpMockRegistry.empty Resp ∧
      (∀ request, st.clear.getHandler request = none) ∧
      st.clear.getRequests = [] := by
  refine ⟨rfl, ?_, rfl⟩
  intro request
  simp [HttpMockRegistry.clear, HttpMockRegistry.getHandler, mapGet]

end TestUtils
